import Mathlib

/-!
Verification of the candidate scoring engine (`calculateCandidateScores` in
`src/utils/storage.ts`) of the 100b-jobs-assignment repository.

Modelling conventions (shallow embedding):
* JavaScript numbers are modelled as exact rationals (`ℚ`); the weight
  constants 0.5, 0.3, 0.2, 0.15, 0.1 are the exact rationals 1/2, 3/10, 1/5,
  3/20, 1/10.
* `Math.round` is modelled as `⌊x + 1/2⌋` (JavaScript rounds halves toward
  positive infinity).
* JavaScript strings are lists of characters; `toLowerCase` is modelled by
  `Char.toLower` on each character (simple case folding).
* Fields that may be absent in the underlying JSON data (`skills`,
  `work_experiences`, `education.degrees`, the boolean prestige flags, and
  the score fields added by the engine) are modelled as `Option`; reading a
  property of `undefined` is a JavaScript `TypeError`, modelled by `Except`.
* `Array.prototype.sort` with a consistent comparator is a stable sort;
  it is modelled by `List.insertionSort` (stable) over the relation
  "comparator result ≤ 0".
-/

abbrev Str := List Char

/-- JavaScript `String.prototype.toLowerCase` (simple per-character folding). -/
def toLowerStr (s : Str) : Str := s.map Char.toLower

/-- Does `needle` occur at the very beginning of `hay`? (helper for `containsSub`). -/
def leadsWith : Str → Str → Bool
  | _, [] => true
  | [], _ :: _ => false
  | h :: hs, n :: ns => h == n && leadsWith hs ns

/-- JavaScript `String.prototype.includes`: `needle` occurs contiguously in `hay`. -/
def containsSub : Str → Str → Bool
  | [], needle => needle.isEmpty
  | h :: t, needle => leadsWith (h :: t) needle || containsSub t needle

/-- `hay.toLowerCase().includes(kw.toLowerCase())`, as in the source. -/
def includesCI (hay kw : Str) : Bool := containsSub (toLowerStr hay) (toLowerStr kw)

/-- A work experience record (`I_WorkExperience`): `{ company, roleName }`. -/
structure WorkExperience where
  company : Str
  roleName : Str
deriving DecidableEq

/-- A degree record (`I_Degree`).  The boolean prestige flags may be absent in
the JSON data (`isTop25?`), so they are `Option Bool`; JavaScript truthiness
reads an absent flag as `false`. -/
structure Degree where
  degree : Str
  subject : Str
  school : Str
  isTop25 : Option Bool
  isTop50 : Option Bool
deriving DecidableEq

/-- The education object (`I_Education`): a highest-level label and a list of
degrees (the list itself may be absent in malformed data). -/
structure Education where
  highest_level : Str
  degrees : Option (List Degree)
deriving DecidableEq

/-- A candidate record (`I_CandidateWithScore`): identity fields, the three
nested collections read by the engine, and the optional score fields the
engine writes.  Further presentational fields of the interface behave exactly
like `id`/`name`/`email` with respect to the engine (copied by the spread). -/
structure Candidate where
  id : Str
  name : Str
  email : Str
  skills : Option (List Str)
  work_experiences : Option (List WorkExperience)
  education : Education
  score : Option ℚ
  skillScore : Option ℚ
  skillMatchPercentage : Option ℚ
  experienceMatchPercentage : Option ℚ
  educationMatchPercentage : Option ℚ
  educationWeight : Option ℚ
deriving DecidableEq

/-- A JavaScript runtime error (reading a property of `undefined`). -/
inductive JsError where
  | typeError
deriving DecidableEq

/-- Reading a member (`.some`, `.length`, …) of a possibly-absent collection:
`undefined` raises a `TypeError`. -/
def getCol {α : Type} : Option α → Except JsError α
  | none => .error .typeError
  | some x => .ok x

/-- `Math.round`: round to the nearest integer, halves toward `+∞`
(`Rat.floor` is the executable floor; see `mathRound_eq`). -/
def mathRound (q : ℚ) : ℤ := (q + 1/2).floor

/-- `Math.round(q * 10) / 10`: round to one decimal place, as in the source. -/
def round1 (q : ℚ) : ℚ := (mathRound (q * 10) : ℚ) / 10

/-- The skill match percentage of the source (lines 143–147):
`(skillKeywords.filter(kw => skills.some(s => s.toLowerCase().includes(kw.toLowerCase()))).length / skillKeywords.length) * 100`. -/
def skillPctVal (sk : List Str) (skills : List Str) : ℚ :=
  (((sk.filter fun kw => skills.any fun s => includesCI s kw).length : ℚ) / (sk.length : ℚ)) * 100

/-- The experience match percentage of the source (lines 151–155), matching
against each work experience's `roleName`. -/
def expPctVal (ek : List Str) (wes : List WorkExperience) : ℚ :=
  (((ek.filter fun kw => wes.any fun w => includesCI w.roleName kw).length : ℚ) / (ek.length : ℚ)) * 100

/-- The education match percentage of the source (lines 159–164), matching
against each degree's `degree` title or `subject`. -/
def eduPctVal (edk : List Str) (ds : List Degree) : ℚ :=
  (((edk.filter fun kw => ds.any fun d => includesCI d.degree kw || includesCI d.subject kw).length : ℚ) / (edk.length : ℚ)) * 100

/-- Lines 168–178: prestige flags and the dynamic education base weight
(0.2 if any degree `isTop25`, else 0.15 if any `isTop50`, else 0.1).
JavaScript truthiness reads an absent flag as false (`Option.getD false`). -/
def baseEduWeight (ds : List Degree) : ℚ :=
  if ds.any fun d => d.isTop25.getD false then 1/5
  else if ds.any fun d => d.isTop50.getD false then 3/20
  else 1/10

/-- Lines 180–183: total active weight (skills 0.5, experience 0.3, education
the dynamic base weight), summed over the active categories only. -/
def totalActiveWeightVal (sk ek edk : List Str) (ds : List Degree) : ℚ :=
  (if sk.isEmpty then 0 else 1/2) + (if ek.isEmpty then 0 else 3/10) +
    (if edk.isEmpty then 0 else baseEduWeight ds)

/-- Lines 186–198: the unrounded total score — each active category
contributes its match percentage times its normalized weight; 0 when no
category is active (the division is guarded by `totalActiveWeight > 0`). -/
def totalScoreVal (sk ek edk : List Str) (skills : List Str)
    (wes : List WorkExperience) (ds : List Degree) : ℚ :=
  let totalActiveWeight := totalActiveWeightVal sk ek edk ds
  if 0 < totalActiveWeight then
    (if sk.isEmpty then 0 else skillPctVal sk skills * ((1/2) / totalActiveWeight)) +
    (if ek.isEmpty then 0 else expPctVal ek wes * ((3/10) / totalActiveWeight)) +
    (if edk.isEmpty then 0 else eduPctVal edk ds * (baseEduWeight ds / totalActiveWeight))
  else 0

/-- The body of `candidates.map(candidate => …)` (lines 140–209).  Errors
(`TypeError` on a missing nested collection) propagate in source evaluation
order: skills (if active), work experiences (if active), degrees (if
education active), then degrees again unconditionally for the prestige
flags. -/
def scoreCandidate (sk ek edk : List Str) (c : Candidate) : Except JsError Candidate := do
  let skillMatchPercentage : ℚ ←
    if sk.isEmpty then pure 0 else do
      let skills ← getCol c.skills
      pure (skillPctVal sk skills)
  let experienceMatchPercentage : ℚ ←
    if ek.isEmpty then pure 0 else do
      let wes ← getCol c.work_experiences
      pure (expPctVal ek wes)
  let educationMatchPercentage : ℚ ←
    if edk.isEmpty then pure 0 else do
      let ds ← getCol c.education.degrees
      pure (eduPctVal edk ds)
  let ds ← getCol c.education.degrees
  let baseEducationWeight := baseEduWeight ds
  let totalActiveWeight := totalActiveWeightVal sk ek edk ds
  let totalScore : ℚ :=
    if 0 < totalActiveWeight then
      (if sk.isEmpty then 0 else skillMatchPercentage * ((1/2) / totalActiveWeight)) +
      (if ek.isEmpty then 0 else experienceMatchPercentage * ((3/10) / totalActiveWeight)) +
      (if edk.isEmpty then 0 else educationMatchPercentage * (baseEducationWeight / totalActiveWeight))
    else 0
  pure { c with
    score := some (round1 totalScore)
    skillScore := some (round1 totalScore)
    skillMatchPercentage := some (round1 skillMatchPercentage)
    experienceMatchPercentage := some (round1 experienceMatchPercentage)
    educationMatchPercentage := some (round1 educationMatchPercentage)
    educationWeight := some (if edk.isEmpty then 0 else baseEducationWeight) }

/-- `a.score!` in the comparator: the non-null assertion on the score field
(every record reaching the sort has just been given a score). -/
def scoreOf (c : Candidate) : ℚ := c.score.getD 0

/-- `c.education.degrees.some(d => d.isTop25)` as evaluated in the comparator;
records reaching the sort always have a present degree list. -/
def hasTop25 (c : Candidate) : Bool :=
  (c.education.degrees.getD []).any fun d => d.isTop25.getD false

/-- `c.education.degrees.some(d => d.isTop50)` as evaluated in the comparator. -/
def hasTop50 (c : Candidate) : Bool :=
  (c.education.degrees.getD []).any fun d => d.isTop50.getD false

/-- The sort comparator of the source (lines 212–228): tie-break on prestige
when the scores differ by less than 0.1, otherwise (and as fallback)
`b.score - a.score`. -/
def cmpQ (a b : Candidate) : ℚ :=
  if |scoreOf a - scoreOf b| < 1/10 then
    if hasTop25 a && !hasTop25 b then -1
    else if !hasTop25 a && hasTop25 b then 1
    else if !hasTop25 a && !hasTop25 b && hasTop50 a && !hasTop50 b then -1
    else if !hasTop25 a && !hasTop25 b && !hasTop50 a && hasTop50 b then 1
    else scoreOf b - scoreOf a
  else scoreOf b - scoreOf a

/-- "`a` may come before `b`" for the stable sort: comparator result ≤ 0. -/
def jsLe (a b : Candidate) : Prop := cmpQ a b ≤ 0

instance : DecidableRel jsLe := fun a b => inferInstanceAs (Decidable (cmpQ a b ≤ 0))

/-- `candidates.map(…)` with JavaScript exception propagation: the first
`TypeError` aborts the whole call. -/
def mapScore (f : Candidate → Except JsError Candidate) : List Candidate → Except JsError (List Candidate)
  | [] => .ok []
  | c :: rest =>
    match f c with
    | .error e => .error e
    | .ok y =>
      match mapScore f rest with
      | .error e => .error e
      | .ok ys => .ok (y :: ys)

/-- `calculateCandidateScores` (lines 125–231): early return on an empty
candidate list, per-candidate scoring, then the stable sort of lines
212–228. -/
def calculateCandidateScores (candidates : List Candidate)
    (skillKeywords experienceKeywords educationKeywords : List Str) :
    Except JsError (List Candidate) :=
  if candidates.isEmpty then .ok []
  else
    match mapScore (scoreCandidate skillKeywords experienceKeywords educationKeywords) candidates with
    | .error e => .error e
    | .ok scored => .ok (scored.insertionSort jsLe)

/-! ### Specification-side notions

These definitions follow the wording of the specification (for refinement
statements); they are deliberately phrased with propositional existentials
rather than the executable combinators of the source. -/

/-- The spec's notion of substring: `needle` occurs contiguously in `hay`. -/
def IsSubstr (needle hay : Str) : Prop := ∃ p s, hay = p ++ needle ++ s

/-- The spec's case-insensitive substring containment: the lowercased
candidate field value contains the lowercased keyword as a substring. -/
def SubstrCI (needle hay : Str) : Prop := IsSubstr (toLowerStr needle) (toLowerStr hay)

theorem leadsWith_iff (n : Str) : ∀ h : Str, leadsWith h n = true ↔ ∃ t, h = n ++ t := by
  induction n with
  | nil =>
    intro h
    simp [leadsWith]
  | cons x ns ih =>
    intro h
    cases h with
    | nil => simp [leadsWith]
    | cons a hs =>
      simp only [leadsWith, Bool.and_eq_true, beq_iff_eq, ih hs]
      constructor
      · rintro ⟨rfl, t, rfl⟩
        exact ⟨t, rfl⟩
      · rintro ⟨t, ht⟩
        rw [List.cons_append] at ht
        cases ht
        exact ⟨rfl, t, rfl⟩

theorem containsSub_iff (n : Str) : ∀ h : Str, containsSub h n = true ↔ IsSubstr n h := by
  intro h
  induction h with
  | nil =>
    simp only [containsSub, List.isEmpty_iff, IsSubstr]
    constructor
    · rintro rfl
      exact ⟨[], [], rfl⟩
    · rintro ⟨p, s, hps⟩
      rcases List.append_eq_nil.mp hps.symm with ⟨hpn, _⟩
      rcases List.append_eq_nil.mp hpn with ⟨_, h1⟩
      exact h1
  | cons a t ih =>
    simp only [containsSub, Bool.or_eq_true, leadsWith_iff, ih, IsSubstr]
    constructor
    · rintro (⟨s, hs⟩ | ⟨p, s, hps⟩)
      · exact ⟨[], s, by simpa using hs⟩
      · exact ⟨a :: p, s, by simp [hps]⟩
    · rintro ⟨p, s, hps⟩
      cases p with
      | nil => exact Or.inl ⟨s, by simpa using hps⟩
      | cons b bs =>
        rw [List.cons_append, List.cons_append] at hps
        cases hps
        exact Or.inr ⟨bs, s, by simp⟩

/-- The executable containment test of the source decides the spec's
case-insensitive substring relation. -/
theorem includesCI_iff (hay kw : Str) : includesCI hay kw = true ↔ SubstrCI kw hay :=
  containsSub_iff (toLowerStr kw) (toLowerStr hay)

instance (needle hay : Str) : Decidable (IsSubstr needle hay) :=
  decidable_of_iff _ (containsSub_iff needle hay)

instance (needle hay : Str) : Decidable (SubstrCI needle hay) :=
  decidable_of_iff _ (includesCI_iff hay needle)

/-! ### Characterisation of the per-candidate scoring step -/

/-- The record built at lines 200–208 for a candidate whose nested
collections are present. -/
def scoredRecord (sk ek edk : List Str) (c : Candidate) (skills : List Str)
    (wes : List WorkExperience) (ds : List Degree) : Candidate :=
  { c with
    score := some (round1 (totalScoreVal sk ek edk skills wes ds))
    skillScore := some (round1 (totalScoreVal sk ek edk skills wes ds))
    skillMatchPercentage := some (round1 (if sk.isEmpty then 0 else skillPctVal sk skills))
    experienceMatchPercentage := some (round1 (if ek.isEmpty then 0 else expPctVal ek wes))
    educationMatchPercentage := some (round1 (if edk.isEmpty then 0 else eduPctVal edk ds))
    educationWeight := some (if edk.isEmpty then 0 else baseEduWeight ds) }

theorem scoreCandidate_ok {sk ek edk : List Str} {c : Candidate} {skills : List Str}
    {wes : List WorkExperience} {ds : List Degree}
    (hs : c.skills = some skills) (hw : c.work_experiences = some wes)
    (hd : c.education.degrees = some ds) :
    scoreCandidate sk ek edk c = .ok (scoredRecord sk ek edk c skills wes ds) := by
  cases hsk : sk.isEmpty <;> cases hek : ek.isEmpty <;> cases hedk : edk.isEmpty <;>
    simp [scoreCandidate, scoredRecord, hs, hw, hd, getCol, hsk, hek, hedk,
      totalScoreVal, totalActiveWeightVal, bind, Except.bind, pure, Except.pure]

/-- Reading a property of an absent `education.degrees` list raises; the read
at lines 168–169 is unconditional, so the whole scoring step fails. -/
theorem scoreCandidate_error_of_degrees_none {sk ek edk : List Str} {c : Candidate}
    (hd : c.education.degrees = none) :
    scoreCandidate sk ek edk c = .error .typeError := by
  cases hsk : sk.isEmpty <;> cases hek : ek.isEmpty <;> cases hedk : edk.isEmpty <;>
    cases hs : c.skills <;> cases hw : c.work_experiences <;>
      simp [scoreCandidate, hs, hw, hd, getCol, hsk, hek, hedk,
        bind, Except.bind, pure, Except.pure]

/-- An absent skills list raises as soon as the skills category is active. -/
theorem scoreCandidate_error_of_skills_none {sk ek edk : List Str} {c : Candidate}
    (hs : c.skills = none) (hsk : sk ≠ []) :
    scoreCandidate sk ek edk c = .error .typeError := by
  have hsk' : sk.isEmpty = false := by
    cases sk with
    | nil => exact absurd rfl hsk
    | cons a l => rfl
  simp [scoreCandidate, hs, hsk', getCol, bind, Except.bind]

theorem mapScore_ok_mem {f : Candidate → Except JsError Candidate} :
    ∀ {l out : List Candidate}, mapScore f l = .ok out →
      ∀ y ∈ out, ∃ x ∈ l, f x = .ok y := by
  intro l
  induction l with
  | nil =>
    intro out h y hy
    simp [mapScore] at h
    subst h
    simp at hy
  | cons c rest ih =>
    intro out h y hy
    rw [mapScore] at h
    cases hc : f c with
    | error e => rw [hc] at h; exact absurd h (by simp)
    | ok z =>
      rw [hc] at h
      cases hr : mapScore f rest with
      | error e => rw [hr] at h; exact absurd h (by simp)
      | ok zs =>
        rw [hr] at h
        simp only [Except.ok.injEq] at h
        subst h
        rcases List.mem_cons.mp hy with rfl | hy'
        · exact ⟨c, List.mem_cons_self c rest, hc⟩
        · rcases ih hr y hy' with ⟨x, hx, hfx⟩
          exact ⟨x, List.mem_cons_of_mem c hx, hfx⟩

theorem mapScore_ok_of_forall {f : Candidate → Except JsError Candidate} :
    ∀ {l : List Candidate}, (∀ c ∈ l, ∃ y, f c = .ok y) →
      ∃ out, mapScore f l = .ok out := by
  intro l
  induction l with
  | nil => intro _; exact ⟨[], rfl⟩
  | cons c rest ih =>
    intro h
    rcases h c (List.mem_cons_self c rest) with ⟨y, hy⟩
    rcases ih (fun x hx => h x (List.mem_cons_of_mem c hx)) with ⟨out, hout⟩
    exact ⟨y :: out, by rw [mapScore, hy, hout]⟩

/-- Unfolding of a successful call: the result is the stable sort of the
scored-in-input-order sequence. -/
theorem calc_ok {candidates : List Candidate} {sk ek edk : List Str} {out : List Candidate}
    (h : calculateCandidateScores candidates sk ek edk = .ok out) :
    ∃ scored, mapScore (scoreCandidate sk ek edk) candidates = .ok scored ∧
      out = scored.insertionSort jsLe := by
  rw [calculateCandidateScores] at h
  by_cases hemp : candidates.isEmpty
  · rw [if_pos hemp] at h
    simp only [Except.ok.injEq] at h
    subst h
    rcases List.isEmpty_iff.mp hemp with rfl
    exact ⟨[], rfl, rfl⟩
  · rw [if_neg hemp] at h
    cases hm : mapScore (scoreCandidate sk ek edk) candidates with
    | error e => rw [hm] at h; exact absurd h (by simp)
    | ok scored =>
      rw [hm] at h
      simp only [Except.ok.injEq] at h
      exact ⟨scored, rfl, h.symm⟩

/-! ### The comparator as an order -/

/-- "is an integer number of tenths" — the shape of every rounded score. -/
def Mult10 (q : ℚ) : Prop := ∃ n : ℤ, q = (n : ℚ) / 10

theorem round1_mult10 (q : ℚ) : Mult10 (round1 q) := ⟨mathRound (q * 10), rfl⟩

theorem mult10_eq_of_abs_sub_lt {a b : ℚ} (ha : Mult10 a) (hb : Mult10 b)
    (h : |a - b| < 1/10) : a = b := by
  obtain ⟨m, rfl⟩ := ha
  obtain ⟨n, rfl⟩ := hb
  rw [div_sub_div_same, abs_div] at h
  have h10 : |(10 : ℚ)| = 10 := by norm_num
  rw [h10] at h
  have h1 : |(m : ℚ) - n| < 1 := by linarith
  have h2 : ((|m - n| : ℤ) : ℚ) < 1 := by push_cast; exact h1
  have h3 : |m - n| < 1 := by exact_mod_cast h2
  have h4 := abs_lt.mp h3
  have h5 : m = n := by omega
  rw [h5]

/-- The tie-break tier from the spec's wording: Top-25 candidates above
non-Top-25, then Top-50 above neither (smaller ranks first). -/
def rank (c : Candidate) : ℕ :=
  if hasTop25 c then 0 else if hasTop50 c then 1 else 2

/-- The comparator as a total preorder on the key (descending score, then
rank): the form the code's comparator takes on rounded scores. -/
def keyLe (a b : Candidate) : Prop :=
  scoreOf b < scoreOf a ∨ (scoreOf a = scoreOf b ∧ rank a ≤ rank b)

instance : DecidableRel keyLe := fun a b =>
  inferInstanceAs (Decidable (scoreOf b < scoreOf a ∨ (scoreOf a = scoreOf b ∧ rank a ≤ rank b)))

instance : IsTotal Candidate keyLe where
  total a b := by
    rcases lt_trichotomy (scoreOf a) (scoreOf b) with h | h | h
    · exact Or.inr (Or.inl h)
    · rcases Nat.le_total (rank a) (rank b) with hr | hr
      · exact Or.inl (Or.inr ⟨h, hr⟩)
      · exact Or.inr (Or.inr ⟨h.symm, hr⟩)
    · exact Or.inl (Or.inl h)

instance : IsTrans Candidate keyLe where
  trans a b c hab hbc := by
    rcases hab with h1 | ⟨e1, r1⟩ <;> rcases hbc with h2 | ⟨e2, r2⟩
    · exact Or.inl (lt_trans h2 h1)
    · exact Or.inl (by rw [← e2]; exact h1)
    · exact Or.inl (by rw [e1]; exact h2)
    · exact Or.inr ⟨e1.trans e2, le_trans r1 r2⟩

/-- The sort ordering stated by the spec: descending score as primary key;
only when two scores differ by less than 0.1 does the prestige tie-break
decide. -/
def specLe (a b : Candidate) : Prop :=
  if |scoreOf a - scoreOf b| < 1/10 then rank a ≤ rank b else scoreOf b < scoreOf a

theorem jsLe_iff_keyLe {a b : Candidate} (ha : Mult10 (scoreOf a)) (hb : Mult10 (scoreOf b)) :
    jsLe a b ↔ keyLe a b := by
  unfold jsLe cmpQ keyLe
  by_cases ht : |scoreOf a - scoreOf b| < 1/10
  · have heq : scoreOf a = scoreOf b := mult10_eq_of_abs_sub_lt ha hb ht
    rw [if_pos ht, heq]
    cases e1 : hasTop25 a <;> cases e2 : hasTop25 b <;>
      cases e3 : hasTop50 a <;> cases e4 : hasTop50 b <;>
        simp [rank, e1, e2, e3, e4, heq]
  · rw [if_neg ht]
    have hne : scoreOf a ≠ scoreOf b := by
      intro he
      exact ht (by rw [he, sub_self, abs_zero]; norm_num)
    constructor
    · intro h
      exact Or.inl (lt_of_le_of_ne (by linarith) (fun he => hne he.symm))
    · rintro (h | ⟨he, _⟩)
      · linarith
      · exact absurd he hne

theorem keyLe_specLe {a b : Candidate} (ha : Mult10 (scoreOf a)) (hb : Mult10 (scoreOf b)) :
    keyLe a b → specLe a b := by
  unfold specLe
  rintro (hlt | ⟨heq, hr⟩)
  · rw [if_neg]
    · exact hlt
    · intro ht
      exact absurd (mult10_eq_of_abs_sub_lt ha hb ht) (ne_of_gt hlt)
  · rw [if_pos (by rw [heq, sub_self, abs_zero]; norm_num)]
    exact hr

/-- Records that are fully tied (equal score and equal prestige tier) are
related by the code comparator in either order. -/
theorem jsLe_of_tie {x y : Candidate} (he : scoreOf x = scoreOf y) (hr : rank x = rank y) :
    jsLe x y := by
  unfold jsLe cmpQ
  rw [if_pos (by rw [he, sub_self, abs_zero]; norm_num)]
  cases e1 : hasTop25 x <;> cases e2 : hasTop25 y <;>
    cases e3 : hasTop50 x <;> cases e4 : hasTop50 y <;>
      simp [rank, e1, e2, e3, e4] at hr ⊢ <;> simp [he]

/-! ### A pointwise congruence for the stable sort -/

theorem orderedInsert_congr {α : Type} {r s : α → α → Prop} [DecidableRel r] [DecidableRel s]
    (a : α) : ∀ l : List α, (∀ b ∈ l, (r a b ↔ s a b)) →
      l.orderedInsert r a = l.orderedInsert s a := by
  intro l
  induction l with
  | nil => intro _; rfl
  | cons b t ih =>
    intro h
    rw [List.orderedInsert, List.orderedInsert]
    by_cases hr : r a b
    · rw [if_pos hr, if_pos ((h b (List.mem_cons_self b t)).mp hr)]
    · rw [if_neg hr, if_neg (fun hs => hr ((h b (List.mem_cons_self b t)).mpr hs)),
        ih (fun x hx => h x (List.mem_cons_of_mem b hx))]

theorem insertionSort_congr {α : Type} {r s : α → α → Prop} [DecidableRel r] [DecidableRel s] :
    ∀ l : List α, (∀ a ∈ l, ∀ b ∈ l, (r a b ↔ s a b)) →
      l.insertionSort r = l.insertionSort s := by
  intro l
  induction l with
  | nil => intro _; rfl
  | cons b t ih =>
    intro h
    rw [List.insertionSort, List.insertionSort,
      ih (fun x hx y hy => h x (List.mem_cons_of_mem b hx) y (List.mem_cons_of_mem b hy))]
    apply orderedInsert_congr
    intro x hx
    exact h b (List.mem_cons_self b t)
      x (List.mem_cons_of_mem b ((List.mem_insertionSort s).mp hx))

/-- Inversion of a successful scoring step: the degree list was present and
the result is the record of lines 200–208 (the skills / work-experience
lists are only consulted when their category is active, so an absent one is
replaced by `[]`, which the gated formulas never read). -/
theorem scoreCandidate_ok_inv {sk ek edk : List Str} {c c' : Candidate}
    (h : scoreCandidate sk ek edk c = .ok c') :
    ∃ ds, c.education.degrees = some ds ∧
      c' = scoredRecord sk ek edk c (c.skills.getD []) (c.work_experiences.getD []) ds := by
  cases hd : c.education.degrees with
  | none =>
    rw [scoreCandidate_error_of_degrees_none hd] at h
    exact absurd h (by simp)
  | some ds =>
    refine ⟨ds, rfl, ?_⟩
    cases hs : c.skills <;> cases hw : c.work_experiences <;>
      cases hsk : sk.isEmpty <;> cases hek : ek.isEmpty <;> cases hedk : edk.isEmpty <;>
        simp_all [scoreCandidate, scoredRecord, getCol,
          totalScoreVal, totalActiveWeightVal, bind, Except.bind, pure, Except.pure]

theorem mult10_of_mem_scored {sk ek edk : List Str} {l scored : List Candidate}
    (h : mapScore (scoreCandidate sk ek edk) l = .ok scored) :
    ∀ c ∈ scored, Mult10 (scoreOf c) := by
  intro c hc
  rcases mapScore_ok_mem h c hc with ⟨x, _, hx⟩
  rcases scoreCandidate_ok_inv hx with ⟨ds, _, rfl⟩
  have hsc : scoreOf (scoredRecord sk ek edk x (x.skills.getD []) (x.work_experiences.getD []) ds)
      = round1 (totalScoreVal sk ek edk (x.skills.getD []) (x.work_experiences.getD []) ds) := by
    simp [scoredRecord, scoreOf]
  rw [hsc]
  exact round1_mult10 _

/-- The output of a successful call is a permutation of the scored-in-input-
order sequence. -/
theorem calc_perm {candidates : List Candidate} {sk ek edk : List Str}
    {out scored : List Candidate}
    (h : calculateCandidateScores candidates sk ek edk = .ok out)
    (hm : mapScore (scoreCandidate sk ek edk) candidates = .ok scored) :
    out.Perm scored := by
  rcases calc_ok h with ⟨scored', hm', rfl⟩
  rw [hm] at hm'
  cases hm'
  exact List.perm_insertionSort jsLe scored

/-- The output of a successful call is ordered by the spec's comparator. -/
theorem calc_pairwise {candidates : List Candidate} {sk ek edk : List Str}
    {out scored : List Candidate}
    (h : calculateCandidateScores candidates sk ek edk = .ok out)
    (hm : mapScore (scoreCandidate sk ek edk) candidates = .ok scored) :
    out.Pairwise specLe := by
  rcases calc_ok h with ⟨scored', hm', rfl⟩
  rw [hm] at hm'
  cases hm'
  have hmul := mult10_of_mem_scored hm
  have hcong : scored.insertionSort jsLe = scored.insertionSort keyLe :=
    insertionSort_congr scored fun a ha b hb => jsLe_iff_keyLe (hmul a ha) (hmul b hb)
  rw [hcong]
  have hsorted : (scored.insertionSort keyLe).Pairwise keyLe :=
    List.sorted_insertionSort keyLe scored
  refine hsorted.imp_of_mem ?_
  intro a b hma hmb hk
  exact keyLe_specLe
    (hmul a ((List.mem_insertionSort keyLe).mp hma))
    (hmul b ((List.mem_insertionSort keyLe).mp hmb)) hk

/-- Stability: two fully tied records (equal score, equal prestige tier) keep
their relative input order in the output. -/
theorem calc_stable {candidates : List Candidate} {sk ek edk : List Str}
    {out scored : List Candidate} {x y : Candidate}
    (h : calculateCandidateScores candidates sk ek edk = .ok out)
    (hm : mapScore (scoreCandidate sk ek edk) candidates = .ok scored)
    (he : scoreOf x = scoreOf y) (hr : rank x = rank y)
    (hsub : [x, y].Sublist scored) : [x, y].Sublist out := by
  rcases calc_ok h with ⟨scored', hm', rfl⟩
  rw [hm] at hm'
  cases hm'
  exact List.pair_sublist_insertionSort (jsLe_of_tie he hr) hsub

theorem mathRound_eq (q : ℚ) : mathRound q = ⌊q + 1/2⌋ := by
  rw [mathRound, Rat.floor_def', ← Rat.floor_def]

/-! ### Rounding: the spec's half-away-from-zero convention and bounds -/

/-- Rounding half away from zero, as the spec words it. -/
def roundHalfAwayFromZero (q : ℚ) : ℤ := if 0 ≤ q then ⌊q + 1/2⌋ else -⌊-q + 1/2⌋

/-- One-decimal rounding with the half-away-from-zero convention. -/
def round1Away (q : ℚ) : ℚ := (roundHalfAwayFromZero (q * 10) : ℚ) / 10

theorem round1_eq_round1Away {q : ℚ} (h : 0 ≤ q) : round1 q = round1Away q := by
  rw [round1, round1Away, roundHalfAwayFromZero, if_pos (by positivity : (0:ℚ) ≤ q * 10),
    mathRound_eq]

theorem round1_nonneg {q : ℚ} (h : 0 ≤ q) : 0 ≤ round1 q := by
  rw [round1, mathRound_eq]
  have h1 : (0 : ℤ) ≤ ⌊q * 10 + 1/2⌋ := Int.floor_nonneg.mpr (by linarith)
  have h2 : (0 : ℚ) ≤ (⌊q * 10 + 1/2⌋ : ℚ) := by exact_mod_cast h1
  linarith

theorem round1_le_100 {q : ℚ} (h : q ≤ 100) : round1 q ≤ 100 := by
  rw [round1, mathRound_eq]
  have h1 : ⌊q * 10 + 1/2⌋ ≤ (1000 : ℤ) := Int.floor_le_iff.mpr (by push_cast; linarith)
  have h2 : ((⌊q * 10 + 1/2⌋ : ℤ) : ℚ) ≤ 1000 := by exact_mod_cast h1
  linarith

theorem round1_zero : round1 0 = 0 := by
  rw [round1, mathRound_eq]
  norm_num

/-! ### Bounds on the match percentages and the total score -/

theorem ratio_pct_bounds (a b : ℕ) (h : a ≤ b) :
    0 ≤ ((a : ℚ) / (b : ℚ)) * 100 ∧ ((a : ℚ) / (b : ℚ)) * 100 ≤ 100 := by
  rcases Nat.eq_zero_or_pos b with rfl | hb
  · interval_cases a
    norm_num
  · have hb' : (0 : ℚ) < b := by exact_mod_cast hb
    have ha' : (0 : ℚ) ≤ a := by positivity
    have hab : (a : ℚ) ≤ b := by exact_mod_cast h
    constructor
    · positivity
    · have : (a : ℚ) / b ≤ 1 := (div_le_one hb').mpr hab
      linarith

theorem skillPctVal_bounds (sk skills : List Str) :
    0 ≤ skillPctVal sk skills ∧ skillPctVal sk skills ≤ 100 := by
  unfold skillPctVal
  exact ratio_pct_bounds _ _ (List.length_filter_le _ _)

theorem expPctVal_bounds (ek : List Str) (wes : List WorkExperience) :
    0 ≤ expPctVal ek wes ∧ expPctVal ek wes ≤ 100 := by
  unfold expPctVal
  exact ratio_pct_bounds _ _ (List.length_filter_le _ _)

theorem eduPctVal_bounds (edk : List Str) (ds : List Degree) :
    0 ≤ eduPctVal edk ds ∧ eduPctVal edk ds ≤ 100 := by
  unfold eduPctVal
  exact ratio_pct_bounds _ _ (List.length_filter_le _ _)

theorem baseEduWeight_pos (ds : List Degree) : 0 < baseEduWeight ds := by
  unfold baseEduWeight
  split_ifs <;> norm_num

theorem totalActiveWeightVal_pos_iff (sk ek edk : List Str) (ds : List Degree) :
    0 < totalActiveWeightVal sk ek edk ds ↔ ¬(sk = [] ∧ ek = [] ∧ edk = []) := by
  have hw := baseEduWeight_pos ds
  have hw2 : baseEduWeight ds ≤ 1/5 := by
    unfold baseEduWeight
    split_ifs <;> norm_num
  unfold totalActiveWeightVal
  rcases sk with _ | ⟨a, sk'⟩ <;> rcases ek with _ | ⟨b, ek'⟩ <;> rcases edk with _ | ⟨c, edk'⟩ <;>
    simp [List.isEmpty] <;> linarith

/-- Convexity: a weighted average of values in `[0, 100]`, with nonnegative
weights summing to the (positive) denominator, stays in `[0, 100]`. -/
theorem convex_bound (p1 p2 p3 a1 a2 a3 : ℚ)
    (h1 : 0 ≤ p1) (h1' : p1 ≤ 100) (h2 : 0 ≤ p2) (h2' : p2 ≤ 100)
    (h3 : 0 ≤ p3) (h3' : p3 ≤ 100) (ha1 : 0 ≤ a1) (ha2 : 0 ≤ a2) (ha3 : 0 ≤ a3)
    (hW : 0 < a1 + a2 + a3) :
    0 ≤ p1 * (a1 / (a1 + a2 + a3)) + p2 * (a2 / (a1 + a2 + a3)) + p3 * (a3 / (a1 + a2 + a3)) ∧
      p1 * (a1 / (a1 + a2 + a3)) + p2 * (a2 / (a1 + a2 + a3)) + p3 * (a3 / (a1 + a2 + a3)) ≤ 100 := by
  have hWne : a1 + a2 + a3 ≠ 0 := ne_of_gt hW
  have hr1 : 0 ≤ a1 / (a1 + a2 + a3) := by positivity
  have hr2 : 0 ≤ a2 / (a1 + a2 + a3) := by positivity
  have hr3 : 0 ≤ a3 / (a1 + a2 + a3) := by positivity
  have hsum : a1 / (a1 + a2 + a3) + a2 / (a1 + a2 + a3) + a3 / (a1 + a2 + a3) = 1 := by
    field_simp
  constructor
  · positivity
  · nlinarith [mul_nonneg (sub_nonneg.mpr h1') hr1, mul_nonneg (sub_nonneg.mpr h2') hr2,
      mul_nonneg (sub_nonneg.mpr h3') hr3]

theorem totalScoreVal_bounds (sk ek edk : List Str) (skills : List Str)
    (wes : List WorkExperience) (ds : List Degree) :
    0 ≤ totalScoreVal sk ek edk skills wes ds ∧ totalScoreVal sk ek edk skills wes ds ≤ 100 := by
  unfold totalScoreVal
  by_cases hW : 0 < totalActiveWeightVal sk ek edk ds
  · rw [if_pos hW]
    have e1 : (if sk.isEmpty then 0 else skillPctVal sk skills * ((1/2) / totalActiveWeightVal sk ek edk ds))
        = (if sk.isEmpty then 0 else skillPctVal sk skills) *
          ((if sk.isEmpty then (0:ℚ) else 1/2) / totalActiveWeightVal sk ek edk ds) := by
      split_ifs <;> simp
    have e2 : (if ek.isEmpty then 0 else expPctVal ek wes * ((3/10) / totalActiveWeightVal sk ek edk ds))
        = (if ek.isEmpty then 0 else expPctVal ek wes) *
          ((if ek.isEmpty then (0:ℚ) else 3/10) / totalActiveWeightVal sk ek edk ds) := by
      split_ifs <;> simp
    have e3 : (if edk.isEmpty then 0 else eduPctVal edk ds * (baseEduWeight ds / totalActiveWeightVal sk ek edk ds))
        = (if edk.isEmpty then 0 else eduPctVal edk ds) *
          ((if edk.isEmpty then (0:ℚ) else baseEduWeight ds) / totalActiveWeightVal sk ek edk ds) := by
      split_ifs <;> simp
    rw [e1, e2, e3]
    have hWeq : totalActiveWeightVal sk ek edk ds
        = (if sk.isEmpty then (0:ℚ) else 1/2) + (if ek.isEmpty then (0:ℚ) else 3/10) +
          (if edk.isEmpty then (0:ℚ) else baseEduWeight ds) := rfl
    rw [hWeq]
    apply convex_bound
    · split_ifs with h
      · exact le_refl 0
      · exact (skillPctVal_bounds sk skills).1
    · split_ifs with h
      · norm_num
      · exact (skillPctVal_bounds sk skills).2
    · split_ifs with h
      · exact le_refl 0
      · exact (expPctVal_bounds ek wes).1
    · split_ifs with h
      · norm_num
      · exact (expPctVal_bounds ek wes).2
    · split_ifs with h
      · exact le_refl 0
      · exact (eduPctVal_bounds edk ds).1
    · split_ifs with h
      · norm_num
      · exact (eduPctVal_bounds edk ds).2
    · split_ifs <;> norm_num
    · split_ifs <;> norm_num
    · split_ifs with h
      · exact le_refl 0
      · exact le_of_lt (baseEduWeight_pos ds)
    · rw [← hWeq]
      exact hW
  · rw [if_neg hW]
    norm_num

/-! ### Specification-side match percentages and weights -/

/-- Spec wording: number of skill keywords for which at least one skill
string contains the keyword case-insensitively, over the total keyword
count, times 100. -/
def specSkillPct (sk skills : List Str) : ℚ :=
  ((sk.countP fun kw => decide (∃ s ∈ skills, SubstrCI kw s)) : ℚ) / (sk.length : ℚ) * 100

/-- Spec wording for the experience category (role titles). -/
def specExpPct (ek : List Str) (wes : List WorkExperience) : ℚ :=
  ((ek.countP fun kw => decide (∃ w ∈ wes, SubstrCI kw w.roleName)) : ℚ) / (ek.length : ℚ) * 100

/-- Spec wording for the education category (degree title or subject). -/
def specEduPct (edk : List Str) (ds : List Degree) : ℚ :=
  ((edk.countP fun kw => decide (∃ d ∈ ds, SubstrCI kw d.degree ∨ SubstrCI kw d.subject)) : ℚ) /
    (edk.length : ℚ) * 100

/-- Spec wording of the education base weight: 0.20 if any degree has
`isTop25` true (regardless of `isTop50`), else 0.15 if any has `isTop50`
true, else 0.10. -/
def specEduWeightOf (ds : List Degree) : ℚ :=
  if ∃ d ∈ ds, d.isTop25 = some true then 1/5
  else if ∃ d ∈ ds, d.isTop50 = some true then 3/20
  else 1/10

theorem skillPct_bridge (sk skills : List Str) : skillPctVal sk skills = specSkillPct sk skills := by
  unfold skillPctVal specSkillPct
  rw [← List.countP_eq_length_filter]
  rw [List.countP_congr]
  intro kw _
  simp only [List.any_eq_true, decide_eq_true_eq]
  constructor
  · rintro ⟨s, hs, hin⟩
    exact ⟨s, hs, (includesCI_iff s kw).mp hin⟩
  · rintro ⟨s, hs, hin⟩
    exact ⟨s, hs, (includesCI_iff s kw).mpr hin⟩

theorem expPct_bridge (ek : List Str) (wes : List WorkExperience) :
    expPctVal ek wes = specExpPct ek wes := by
  unfold expPctVal specExpPct
  rw [← List.countP_eq_length_filter]
  rw [List.countP_congr]
  intro kw _
  simp only [List.any_eq_true, decide_eq_true_eq]
  constructor
  · rintro ⟨w, hw, hin⟩
    exact ⟨w, hw, (includesCI_iff w.roleName kw).mp hin⟩
  · rintro ⟨w, hw, hin⟩
    exact ⟨w, hw, (includesCI_iff w.roleName kw).mpr hin⟩

theorem eduPct_bridge (edk : List Str) (ds : List Degree) :
    eduPctVal edk ds = specEduPct edk ds := by
  unfold eduPctVal specEduPct
  rw [← List.countP_eq_length_filter]
  rw [List.countP_congr]
  intro kw _
  simp only [List.any_eq_true, Bool.or_eq_true, decide_eq_true_eq]
  constructor
  · rintro ⟨d, hd, hin | hin⟩
    · exact ⟨d, hd, Or.inl ((includesCI_iff d.degree kw).mp hin)⟩
    · exact ⟨d, hd, Or.inr ((includesCI_iff d.subject kw).mp hin)⟩
  · rintro ⟨d, hd, hin | hin⟩
    · exact ⟨d, hd, Or.inl ((includesCI_iff d.degree kw).mpr hin)⟩
    · exact ⟨d, hd, Or.inr ((includesCI_iff d.subject kw).mpr hin)⟩

theorem eduWeight_bridge (ds : List Degree) : baseEduWeight ds = specEduWeightOf ds := by
  unfold baseEduWeight specEduWeightOf
  have h25 : (ds.any fun d => d.isTop25.getD false) = true ↔ ∃ d ∈ ds, d.isTop25 = some true := by
    simp only [List.any_eq_true]
    constructor
    · rintro ⟨d, hd, h⟩
      cases e : d.isTop25 with
      | none => rw [e] at h; simp at h
      | some b => rw [e] at h; simp at h; rw [h] at e; exact ⟨d, hd, e⟩
    · rintro ⟨d, hd, h⟩
      exact ⟨d, hd, by rw [h]; rfl⟩
  have h50 : (ds.any fun d => d.isTop50.getD false) = true ↔ ∃ d ∈ ds, d.isTop50 = some true := by
    simp only [List.any_eq_true]
    constructor
    · rintro ⟨d, hd, h⟩
      cases e : d.isTop50 with
      | none => rw [e] at h; simp at h
      | some b => rw [e] at h; simp at h; rw [h] at e; exact ⟨d, hd, e⟩
    · rintro ⟨d, hd, h⟩
      exact ⟨d, hd, by rw [h]; rfl⟩
  by_cases e25 : ∃ d ∈ ds, d.isTop25 = some true
  · rw [if_pos (h25.mpr e25), if_pos e25]
  · rw [if_neg (fun h => e25 (h25.mp h)), if_neg e25]
    by_cases e50 : ∃ d ∈ ds, d.isTop50 = some true
    · rw [if_pos (h50.mpr e50), if_pos e50]
    · rw [if_neg (fun h => e50 (h50.mp h)), if_neg e50]

/-- An absent work-experience list raises as soon as the experience category
is active. -/
theorem scoreCandidate_error_of_wes_none {sk ek edk : List Str} {c : Candidate}
    (hw : c.work_experiences = none) (hek : ek ≠ []) :
    scoreCandidate sk ek edk c = .error .typeError := by
  have hek' : ek.isEmpty = false := by
    cases ek with
    | nil => exact absurd rfl hek
    | cons a l => rfl
  cases hsk : sk.isEmpty <;> cases hs : c.skills <;>
    simp [scoreCandidate, hs, hw, hek', hsk, getCol, bind, Except.bind, pure, Except.pure]

/-! ### Specification-side score formula -/

/-- The spec's total active weight (same shape as the code's, written with
the spec's emptiness tests and prestige-flag wording). -/
def specTotalActiveWeight (sk ek edk : List Str) (ds : List Degree) : ℚ :=
  (if sk = [] then 0 else 1/2) + (if ek = [] then 0 else 3/10) +
    (if edk = [] then 0 else specEduWeightOf ds)

/-- The spec's final (unrounded) score: the sum over active categories of
match percentage times normalized weight. -/
def specScoreVal (sk ek edk : List Str) (skills : List Str)
    (wes : List WorkExperience) (ds : List Degree) : ℚ :=
  (if sk = [] then 0
    else specSkillPct sk skills * ((1/2) / specTotalActiveWeight sk ek edk ds)) +
  (if ek = [] then 0
    else specExpPct ek wes * ((3/10) / specTotalActiveWeight sk ek edk ds)) +
  (if edk = [] then 0
    else specEduPct edk ds * (specEduWeightOf ds / specTotalActiveWeight sk ek edk ds))

theorem totalActiveWeight_bridge (sk ek edk : List Str) (ds : List Degree) :
    totalActiveWeightVal sk ek edk ds = specTotalActiveWeight sk ek edk ds := by
  unfold totalActiveWeightVal specTotalActiveWeight
  rw [eduWeight_bridge]
  simp only [List.isEmpty_iff]

theorem totalScoreVal_eq_spec (sk ek edk : List Str) (skills : List Str)
    (wes : List WorkExperience) (ds : List Degree)
    (h : ¬(sk = [] ∧ ek = [] ∧ edk = [])) :
    totalScoreVal sk ek edk skills wes ds = specScoreVal sk ek edk skills wes ds := by
  unfold totalScoreVal specScoreVal
  rw [if_pos ((totalActiveWeightVal_pos_iff sk ek edk ds).mpr h)]
  rw [skillPct_bridge, expPct_bridge, eduPct_bridge, eduWeight_bridge,
    totalActiveWeight_bridge]
  simp only [List.isEmpty_iff]

/-! ### Concrete fixtures for witnesses and counterexamples -/

deriving instance DecidableEq for Except

set_option maxRecDepth 40000

/-- A degree with neither prestige flag. -/
def degPlain : Degree :=
  { degree := "BA".toList, subject := "IT".toList, school := "S".toList,
    isTop25 := some false, isTop50 := some false }

/-- A Top-25 degree. -/
def degTop25 : Degree :=
  { degree := "MS".toList, subject := "CS".toList, school := "U".toList,
    isTop25 := some true, isTop50 := some true }

/-- A well-formed candidate with empty collections and a plain degree. -/
def baseCand : Candidate :=
  { id := "c".toList, name := "n".toList, email := "e".toList, skills := some [],
    work_experiences := some [], education := { highest_level := [], degrees := some [degPlain] },
    score := none, skillScore := none, skillMatchPercentage := none,
    experienceMatchPercentage := none, educationMatchPercentage := none,
    educationWeight := none }

def skillReact : Str := "react".toList

def kwReact : Str := "React".toList

/-- A candidate that does not match the `React` keyword. -/
def candLow : Candidate := { baseCand with id := "l".toList, skills := some ["css".toList] }

/-- A candidate that matches the `React` keyword. -/
def candHigh : Candidate := { baseCand with id := "h".toList, skills := some [skillReact] }

/-- A malformed candidate whose `education.degrees` list is absent. -/
def candNoDeg : Candidate :=
  { baseCand with education := { highest_level := [], degrees := none } }

/-- A candidate arriving with a pre-existing `score` field. -/
def candScore7 : Candidate := { baseCand with score := some 7 }

/-- Extract the payload of a call already known to succeed. -/
def okOr : Except JsError (List Candidate) → List Candidate
  | .ok l => l
  | .error _ => []

/-- Extract the payload of a per-candidate step already known to succeed. -/
def okCand : Except JsError Candidate → Candidate
  | .ok c => c
  | .error _ => baseCand

def outC1 : List Candidate := okOr (calculateCandidateScores [candLow, candHigh] [kwReact] [] [])

def scoredC1 : List Candidate := okOr (mapScore (scoreCandidate [kwReact] [] []) [candLow, candHigh])

def c3out : Candidate := okCand (scoreCandidate [kwReact] [] [] candHigh)

/-! ### Claims -/

/-- C1 (counterexample): `calculateCandidateScores` does NOT return the
scored candidates in input order — with candidates `[candLow, candHigh]` and
the single skill keyword `React`, the returned ids are `[h, l]`, the reverse
of the input order: the function sorts internally. -/
theorem C1_counterexample :
    (calculateCandidateScores [candLow, candHigh] [kwReact] [] []).map
        (fun l => l.map Candidate.id) = .ok ["h".toList, "l".toList] ∧
      ("h".toList : Str) ≠ "l".toList := by
  constructor
  · with_unfolding_all decide
  · with_unfolding_all decide

/-- C1 (amended): `calculateCandidateScores` sorts internally — every
successful call returns exactly the stable sort (by the descending-score /
prestige comparator) of the scored-in-input-order sequence, a permutation of
it, rather than leaving the order to the caller. -/
theorem C1_sorting_baked_in (candidates : List Candidate) (sk ek edk : List Str)
    (out scored : List Candidate)
    (h : calculateCandidateScores candidates sk ek edk = .ok out)
    (hm : mapScore (scoreCandidate sk ek edk) candidates = .ok scored) :
    out = scored.insertionSort jsLe ∧ out.Perm scored := by
  rcases calc_ok h with ⟨scored', hm', rfl⟩
  rw [hm] at hm'
  cases hm'
  exact ⟨rfl, List.perm_insertionSort jsLe scored⟩

theorem C1_witness :
    calculateCandidateScores [candLow, candHigh] [kwReact] [] [] = .ok outC1 ∧
      mapScore (scoreCandidate [kwReact] [] []) [candLow, candHigh] = .ok scoredC1 ∧
      outC1 = scoredC1.insertionSort jsLe := by
  have h1 : calculateCandidateScores [candLow, candHigh] [kwReact] [] [] = .ok outC1 := by
    with_unfolding_all decide
  have h2 : mapScore (scoreCandidate [kwReact] [] []) [candLow, candHigh] = .ok scoredC1 := by
    with_unfolding_all decide
  exact ⟨h1, h2, (C1_sorting_baked_in [candLow, candHigh] [kwReact] [] [] outC1 scoredC1 h1 h2).1⟩

/-- C2 (counterexample): a candidate whose `education.degrees` is absent
makes the whole call raise a `TypeError` (lines 168–169 read the list
unconditionally), even with every keyword list empty — the engine does not
degrade to "no match". -/
theorem C2_counterexample :
    calculateCandidateScores [candNoDeg] [] [] [] = .error .typeError := by
  with_unfolding_all decide

/-- C2 (amended): absent boolean prestige flags are indeed read as `false`,
and a candidate with all nested collections present never raises; but an
absent nested collection is NOT treated as empty: an absent
`education.degrees` always raises a `TypeError`, and an absent `skills` /
`work_experiences` raises whenever its category is active. -/
theorem C2_missing_collections :
    (∀ (sk ek edk : List Str) (c : Candidate), c.education.degrees = none →
        calculateCandidateScores [c] sk ek edk = .error .typeError) ∧
    (∀ (sk ek edk : List Str) (c : Candidate), c.skills = none → sk ≠ [] →
        scoreCandidate sk ek edk c = .error .typeError) ∧
    (∀ (sk ek edk : List Str) (c : Candidate), c.work_experiences = none → ek ≠ [] →
        scoreCandidate sk ek edk c = .error .typeError) ∧
    (∀ c : Candidate, hasTop25 c = true ↔ ∃ d ∈ c.education.degrees.getD [], d.isTop25 = some true) ∧
    (∀ c : Candidate, hasTop50 c = true ↔ ∃ d ∈ c.education.degrees.getD [], d.isTop50 = some true) ∧
    (∀ (candidates : List Candidate) (sk ek edk : List Str),
      (∀ c ∈ candidates, (∃ s, c.skills = some s) ∧ (∃ w, c.work_experiences = some w) ∧
        (∃ d, c.education.degrees = some d)) →
      ∃ out, calculateCandidateScores candidates sk ek edk = .ok out) := by
  refine ⟨?_, ?_, ?_, ?_, ?_, ?_⟩
  · intro sk ek edk c hd
    rw [calculateCandidateScores, if_neg (by simp)]
    rw [mapScore, scoreCandidate_error_of_degrees_none hd]
  · intro sk ek edk c hs hsk
    exact scoreCandidate_error_of_skills_none hs hsk
  · intro sk ek edk c hw hek
    exact scoreCandidate_error_of_wes_none hw hek
  · intro c
    unfold hasTop25
    simp only [List.any_eq_true]
    constructor
    · rintro ⟨d, hd, h⟩
      cases e : d.isTop25 with
      | none => rw [e] at h; simp at h
      | some b => rw [e] at h; simp at h; rw [h] at e; exact ⟨d, hd, e⟩
    · rintro ⟨d, hd, h⟩
      exact ⟨d, hd, by rw [h]; rfl⟩
  · intro c
    unfold hasTop50
    simp only [List.any_eq_true]
    constructor
    · rintro ⟨d, hd, h⟩
      cases e : d.isTop50 with
      | none => rw [e] at h; simp at h
      | some b => rw [e] at h; simp at h; rw [h] at e; exact ⟨d, hd, e⟩
    · rintro ⟨d, hd, h⟩
      exact ⟨d, hd, by rw [h]; rfl⟩
  · intro candidates sk ek edk h
    have hall : ∀ c ∈ candidates, ∃ y, scoreCandidate sk ek edk c = .ok y := by
      intro c hc
      rcases h c hc with ⟨⟨s, hs⟩, ⟨w, hw⟩, ⟨d, hd⟩⟩
      exact ⟨_, scoreCandidate_ok hs hw hd⟩
    rcases mapScore_ok_of_forall hall with ⟨scored, hsc⟩
    by_cases he : candidates.isEmpty
    · exact ⟨[], by rw [calculateCandidateScores, if_pos he]⟩
    · exact ⟨scored.insertionSort jsLe, by rw [calculateCandidateScores, if_neg he, hsc]⟩

theorem C2_witness :
    candNoDeg.education.degrees = none ∧
      calculateCandidateScores [candNoDeg] [kwReact] [] [] = .error .typeError :=
  ⟨rfl, C2_missing_collections.1 [kwReact] [] [] candNoDeg rfl⟩

/-- C3: for every candidate (with its collections present) the unrounded
match percentage of each active category is the spec's
matched-keyword-count over total-keyword-count times 100, with
case-insensitive substring matching over the category's relevant fields;
an inactive (empty) keyword list yields a stored match percentage of 0. -/
theorem C3_match_percentages (sk ek edk : List Str) (skills : List Str)
    (wes : List WorkExperience) (ds : List Degree) (c c' : Candidate)
    (hs : c.skills = some skills) (hw : c.work_experiences = some wes)
    (hd : c.education.degrees = some ds)
    (hok : scoreCandidate sk ek edk c = .ok c') :
    (sk ≠ [] → skillPctVal sk skills = specSkillPct sk skills) ∧
    (ek ≠ [] → expPctVal ek wes = specExpPct ek wes) ∧
    (edk ≠ [] → eduPctVal edk ds = specEduPct edk ds) ∧
    (sk = [] → c'.skillMatchPercentage = some 0) ∧
    (ek = [] → c'.experienceMatchPercentage = some 0) ∧
    (edk = [] → c'.educationMatchPercentage = some 0) := by
  rw [scoreCandidate_ok hs hw hd] at hok
  simp only [Except.ok.injEq] at hok
  subst hok
  refine ⟨fun _ => skillPct_bridge sk skills, fun _ => expPct_bridge ek wes,
    fun _ => eduPct_bridge edk ds, ?_, ?_, ?_⟩
  · rintro rfl
    simp [scoredRecord, round1_zero]
  · rintro rfl
    simp [scoredRecord, round1_zero]
  · rintro rfl
    simp [scoredRecord, round1_zero]

theorem C3_witness :
    scoreCandidate [kwReact] [] [] candHigh = .ok c3out ∧ ([kwReact] : List Str) ≠ [] ∧
      skillPctVal [kwReact] [skillReact] = specSkillPct [kwReact] [skillReact] := by
  have hok : scoreCandidate [kwReact] [] [] candHigh = .ok c3out := by
    with_unfolding_all decide
  exact ⟨hok, by decide,
    (C3_match_percentages [kwReact] [] [] [skillReact] [] [degPlain] candHigh c3out
      rfl rfl rfl hok).1 (by decide)⟩

/-- C4: for every candidate with at least one active category, the stored
score is the spec's weighted sum (match percentage times base weight over
total active weight, summed over active categories) rounded to one decimal;
in the skills+experience-only configuration, full skill match and zero
experience match give exactly 62.5. -/
theorem C4_weighted_score (sk ek edk : List Str) (skills : List Str)
    (wes : List WorkExperience) (ds : List Degree) (c c' : Candidate)
    (hs : c.skills = some skills) (hw : c.work_experiences = some wes)
    (hd : c.education.degrees = some ds)
    (hok : scoreCandidate sk ek edk c = .ok c') :
    (¬(sk = [] ∧ ek = [] ∧ edk = []) →
      c'.score = some (round1 (specScoreVal sk ek edk skills wes ds))) ∧
    (sk ≠ [] → ek ≠ [] → edk = [] → specSkillPct sk skills = 100 → specExpPct ek wes = 0 →
      c'.score = some (125/2)) := by
  rw [scoreCandidate_ok hs hw hd] at hok
  simp only [Except.ok.injEq] at hok
  subst hok
  have hscore : (scoredRecord sk ek edk c skills wes ds).score
      = some (round1 (totalScoreVal sk ek edk skills wes ds)) := rfl
  constructor
  · intro hact
    rw [hscore, totalScoreVal_eq_spec sk ek edk skills wes ds hact]
  · intro hsk hek hedk h100 h0
    subst hedk
    rw [hscore, totalScoreVal_eq_spec sk ek [] skills wes ds (fun h => hsk h.1)]
    have hW : specTotalActiveWeight sk ek ([] : List Str) ds = 4/5 := by
      unfold specTotalActiveWeight
      rw [if_neg hsk, if_neg hek, if_pos rfl]
      norm_num
    unfold specScoreVal
    rw [if_neg hsk, if_neg hek, if_pos rfl, hW, h100, h0]
    with_unfolding_all decide

def c4out : Candidate := okCand (scoreCandidate [kwReact] ["x".toList] [] candHigh)

theorem C4_witness :
    scoreCandidate [kwReact] ["x".toList] [] candHigh = .ok c4out ∧
      ([kwReact] : List Str) ≠ [] ∧ (["x".toList] : List Str) ≠ [] ∧
      specSkillPct [kwReact] [skillReact] = 100 ∧
      specExpPct ["x".toList] [] = 0 ∧
      c4out.score = some (125/2) := by
  have hok : scoreCandidate [kwReact] ["x".toList] [] candHigh = .ok c4out := by
    with_unfolding_all decide
  refine ⟨hok, by decide, by decide, by with_unfolding_all decide, by with_unfolding_all decide, ?_⟩
  exact (C4_weighted_score [kwReact] ["x".toList] [] [skillReact] [] [degPlain] candHigh c4out
    rfl rfl rfl hok).2 (by decide) (by decide) rfl (by with_unfolding_all decide)
    (by with_unfolding_all decide)

/-- C5: the education base weight is 0.20 as soon as some degree has
`isTop25` (regardless of `isTop50`), else 0.15 with some `isTop50`, else
0.10, computed from the candidate's own flags; the stored `educationWeight`
is that base weight when education is active and 0 when its keyword list is
empty. -/
theorem C5_education_weight (sk ek edk : List Str) (skills : List Str)
    (wes : List WorkExperience) (ds : List Degree) (c c' : Candidate)
    (hs : c.skills = some skills) (hw : c.work_experiences = some wes)
    (hd : c.education.degrees = some ds)
    (hok : scoreCandidate sk ek edk c = .ok c') :
    c'.educationWeight = some (if edk = [] then 0 else specEduWeightOf ds) ∧
    ((∃ d ∈ ds, d.isTop25 = some true) → specEduWeightOf ds = 1/5) ∧
    (¬(∃ d ∈ ds, d.isTop25 = some true) → (∃ d ∈ ds, d.isTop50 = some true) →
      specEduWeightOf ds = 3/20) ∧
    (¬(∃ d ∈ ds, d.isTop25 = some true) → ¬(∃ d ∈ ds, d.isTop50 = some true) →
      specEduWeightOf ds = 1/10) := by
  rw [scoreCandidate_ok hs hw hd] at hok
  simp only [Except.ok.injEq] at hok
  subst hok
  refine ⟨?_, ?_, ?_, ?_⟩
  · have : (scoredRecord sk ek edk c skills wes ds).educationWeight
        = some (if edk.isEmpty then 0 else baseEduWeight ds) := rfl
    rw [this, eduWeight_bridge]
    simp only [List.isEmpty_iff]
  · intro h
    unfold specEduWeightOf
    rw [if_pos h]
  · intro h25 h50
    unfold specEduWeightOf
    rw [if_neg h25, if_pos h50]
  · intro h25 h50
    unfold specEduWeightOf
    rw [if_neg h25, if_neg h50]

/-- A candidate holding a Top-25 degree. -/
def candT25 : Candidate :=
  { baseCand with education := { highest_level := [], degrees := some [degTop25] } }

def c5out : Candidate := okCand (scoreCandidate [] [] [kwReact] candT25)

theorem C5_witness :
    scoreCandidate [] [] [kwReact] candT25 = .ok c5out ∧
      (∃ d ∈ [degTop25], d.isTop25 = some true) ∧
      c5out.educationWeight = some (if ([kwReact] : List Str) = [] then 0 else specEduWeightOf [degTop25]) ∧
      specEduWeightOf [degTop25] = 1/5 := by
  have hok : scoreCandidate [] [] [kwReact] candT25 = .ok c5out := by
    with_unfolding_all decide
  have h := C5_education_weight [] [] [kwReact] [] [] [degTop25] candT25 c5out rfl rfl rfl hok
  exact ⟨hok, ⟨degTop25, by decide, rfl⟩, h.1, h.2.1 ⟨degTop25, by decide, rfl⟩⟩

/-- C6: with all three keyword lists empty, every candidate of a successful
call comes back with score 0 and education weight 0 (the
`totalActiveWeight > 0` guard short-circuits the normalisation, so no
division is reached). -/
theorem C6_no_keywords_zero (candidates out : List Candidate)
    (hne : candidates ≠ [])
    (h : calculateCandidateScores candidates [] [] [] = .ok out) :
    ∀ c' ∈ out, c'.score = some 0 ∧ c'.educationWeight = some 0 := by
  rcases calc_ok h with ⟨scored, hm, rfl⟩
  intro c' hc'
  rcases mapScore_ok_mem hm c' ((List.mem_insertionSort jsLe).mp hc') with ⟨x, _, hx⟩
  rcases scoreCandidate_ok_inv hx with ⟨ds, hd, rfl⟩
  have hts : totalScoreVal [] [] [] (x.skills.getD []) (x.work_experiences.getD []) ds = 0 := by
    unfold totalScoreVal totalActiveWeightVal
    norm_num [List.isEmpty]
  constructor
  · have h1 : (scoredRecord [] [] [] x (x.skills.getD []) (x.work_experiences.getD []) ds).score
        = some (round1 (totalScoreVal [] [] [] (x.skills.getD []) (x.work_experiences.getD []) ds)) := rfl
    rw [h1, hts, round1_zero]
  · rfl

def c6outL : List Candidate := okOr (calculateCandidateScores [baseCand] [] [] [])

theorem C6_witness :
    ([baseCand] : List Candidate) ≠ [] ∧
      calculateCandidateScores [baseCand] [] [] [] = .ok c6outL ∧
      ∀ c' ∈ c6outL, c'.score = some 0 ∧ c'.educationWeight = some 0 := by
  have h : calculateCandidateScores [baseCand] [] [] [] = .ok c6outL := by
    with_unfolding_all decide
  exact ⟨List.cons_ne_nil baseCand [], h, C6_no_keywords_zero [baseCand] c6outL (List.cons_ne_nil baseCand []) h⟩

/-- C7: the order returned by a successful call is descending score as
primary key, the prestige tie-break (Top-25 first, then Top-50) deciding
exactly when two scores differ by less than 0.1, and fully tied records
(equal score and equal prestige tier) keep their relative input order
(stable sort). -/
theorem C7_sort_order (candidates : List Candidate) (sk ek edk : List Str)
    (out scored : List Candidate)
    (h : calculateCandidateScores candidates sk ek edk = .ok out)
    (hm : mapScore (scoreCandidate sk ek edk) candidates = .ok scored) :
    out.Pairwise specLe ∧
      (∀ x y : Candidate, scoreOf x = scoreOf y → rank x = rank y →
        [x, y].Sublist scored → [x, y].Sublist out) :=
  ⟨calc_pairwise h hm, fun x y he hr hsub => calc_stable h hm he hr hsub⟩

theorem C7_witness :
    calculateCandidateScores [candLow, candHigh] [kwReact] [] [] = .ok outC1 ∧
      mapScore (scoreCandidate [kwReact] [] []) [candLow, candHigh] = .ok scoredC1 ∧
      outC1.Pairwise specLe := by
  have h1 : calculateCandidateScores [candLow, candHigh] [kwReact] [] [] = .ok outC1 := by
    with_unfolding_all decide
  have h2 : mapScore (scoreCandidate [kwReact] [] []) [candLow, candHigh] = .ok scoredC1 := by
    with_unfolding_all decide
  exact ⟨h1, h2, (C7_sort_order [candLow, candHigh] [kwReact] [] [] outC1 scoredC1 h1 h2).1⟩

/-- C8: each stored percentage field and the score are obtained by rounding
the corresponding unrounded value independently to one decimal with the
half-away-from-zero convention (which on these nonnegative values coincides
with the code's `Math.round`), and each stored value lies in `[0, 100]`. -/
theorem C8_rounded_fields (sk ek edk : List Str) (skills : List Str)
    (wes : List WorkExperience) (ds : List Degree) (c c' : Candidate)
    (hs : c.skills = some skills) (hw : c.work_experiences = some wes)
    (hd : c.education.degrees = some ds)
    (hok : scoreCandidate sk ek edk c = .ok c') :
    (c'.score = some (round1Away (totalScoreVal sk ek edk skills wes ds)) ∧
      (∀ q, c'.score = some q → 0 ≤ q ∧ q ≤ 100)) ∧
    (c'.skillMatchPercentage = some (round1Away (if sk.isEmpty then 0 else skillPctVal sk skills)) ∧
      (∀ q, c'.skillMatchPercentage = some q → 0 ≤ q ∧ q ≤ 100)) ∧
    (c'.experienceMatchPercentage = some (round1Away (if ek.isEmpty then 0 else expPctVal ek wes)) ∧
      (∀ q, c'.experienceMatchPercentage = some q → 0 ≤ q ∧ q ≤ 100)) ∧
    (c'.educationMatchPercentage = some (round1Away (if edk.isEmpty then 0 else eduPctVal edk ds)) ∧
      (∀ q, c'.educationMatchPercentage = some q → 0 ≤ q ∧ q ≤ 100)) := by
  rw [scoreCandidate_ok hs hw hd] at hok
  simp only [Except.ok.injEq] at hok
  subst hok
  have key : ∀ u : ℚ, 0 ≤ u → u ≤ 100 →
      (some (round1 u) = some (round1Away u) ∧
        ∀ q : ℚ, some (round1 u) = some q → 0 ≤ q ∧ q ≤ 100) := by
    intro u h1 h2
    refine ⟨by rw [round1_eq_round1Away h1], ?_⟩
    intro q hq
    simp only [Option.some.injEq] at hq
    subst hq
    exact ⟨round1_nonneg h1, round1_le_100 h2⟩
  have hts := totalScoreVal_bounds sk ek edk skills wes ds
  have hsk : 0 ≤ (if sk.isEmpty then (0:ℚ) else skillPctVal sk skills) ∧
      (if sk.isEmpty then (0:ℚ) else skillPctVal sk skills) ≤ 100 := by
    split_ifs
    · norm_num
    · exact skillPctVal_bounds sk skills
  have hek : 0 ≤ (if ek.isEmpty then (0:ℚ) else expPctVal ek wes) ∧
      (if ek.isEmpty then (0:ℚ) else expPctVal ek wes) ≤ 100 := by
    split_ifs
    · norm_num
    · exact expPctVal_bounds ek wes
  have hedk : 0 ≤ (if edk.isEmpty then (0:ℚ) else eduPctVal edk ds) ∧
      (if edk.isEmpty then (0:ℚ) else eduPctVal edk ds) ≤ 100 := by
    split_ifs
    · norm_num
    · exact eduPctVal_bounds edk ds
  exact ⟨key _ hts.1 hts.2, key _ hsk.1 hsk.2, key _ hek.1 hek.2, key _ hedk.1 hedk.2⟩

theorem C8_witness :
    scoreCandidate [kwReact] [] [] candHigh = .ok c3out ∧
      c3out.score = some (round1Away (totalScoreVal [kwReact] [] [] [skillReact] [] [degPlain])) := by
  have hok : scoreCandidate [kwReact] [] [] candHigh = .ok c3out := by
    with_unfolding_all decide
  exact ⟨hok,
    ((C8_rounded_fields [kwReact] [] [] [skillReact] [] [degPlain] candHigh c3out
      rfl rfl rfl hok).1).1⟩

theorem scoreCandidate_perm_sk {sk sk' ek edk : List Str} {c : Candidate}
    (h : sk.Perm sk') : scoreCandidate sk ek edk c = scoreCandidate sk' ek edk c := by
  have hl : sk.length = sk'.length := h.length_eq
  have he : sk.isEmpty = sk'.isEmpty := by
    rw [Bool.eq_iff_iff, List.isEmpty_iff_length_eq_zero, List.isEmpty_iff_length_eq_zero, hl]
  have hp : ∀ x, skillPctVal sk x = skillPctVal sk' x := fun x => by
    unfold skillPctVal
    rw [← List.countP_eq_length_filter, ← List.countP_eq_length_filter, h.countP_eq, hl]
  simp only [scoreCandidate, totalActiveWeightVal, he, hp]

theorem scoreCandidate_perm_ek {sk ek ek' edk : List Str} {c : Candidate}
    (h : ek.Perm ek') : scoreCandidate sk ek edk c = scoreCandidate sk ek' edk c := by
  have hl : ek.length = ek'.length := h.length_eq
  have he : ek.isEmpty = ek'.isEmpty := by
    rw [Bool.eq_iff_iff, List.isEmpty_iff_length_eq_zero, List.isEmpty_iff_length_eq_zero, hl]
  have hp : ∀ x, expPctVal ek x = expPctVal ek' x := fun x => by
    unfold expPctVal
    rw [← List.countP_eq_length_filter, ← List.countP_eq_length_filter, h.countP_eq, hl]
  simp only [scoreCandidate, totalActiveWeightVal, he, hp]

theorem scoreCandidate_perm_edk {sk ek edk edk' : List Str} {c : Candidate}
    (h : edk.Perm edk') : scoreCandidate sk ek edk c = scoreCandidate sk ek edk' c := by
  have hl : edk.length = edk'.length := h.length_eq
  have he : edk.isEmpty = edk'.isEmpty := by
    rw [Bool.eq_iff_iff, List.isEmpty_iff_length_eq_zero, List.isEmpty_iff_length_eq_zero, hl]
  have hp : ∀ x, eduPctVal edk x = eduPctVal edk' x := fun x => by
    unfold eduPctVal
    rw [← List.countP_eq_length_filter, ← List.countP_eq_length_filter, h.countP_eq, hl]
  simp only [scoreCandidate, totalActiveWeightVal, he, hp]

/-- C9: the engine is pure (two calls on identical inputs agree), and each
candidate's scoring result is invariant under permuting the keywords inside
any one category. -/
theorem C9_deterministic_order_invariant :
    (∀ (candidates : List Candidate) (sk ek edk : List Str),
      calculateCandidateScores candidates sk ek edk = calculateCandidateScores candidates sk ek edk) ∧
    (∀ (sk sk' ek edk : List Str) (c : Candidate), sk.Perm sk' →
      scoreCandidate sk ek edk c = scoreCandidate sk' ek edk c) ∧
    (∀ (sk ek ek' edk : List Str) (c : Candidate), ek.Perm ek' →
      scoreCandidate sk ek edk c = scoreCandidate sk ek' edk c) ∧
    (∀ (sk ek edk edk' : List Str) (c : Candidate), edk.Perm edk' →
      scoreCandidate sk ek edk c = scoreCandidate sk ek edk' c) :=
  ⟨fun _ _ _ _ => rfl,
   fun _ _ _ _ _ h => scoreCandidate_perm_sk h,
   fun _ _ _ _ _ h => scoreCandidate_perm_ek h,
   fun _ _ _ _ _ h => scoreCandidate_perm_edk h⟩

theorem C9_witness :
    ([kwReact, skillReact] : List Str).Perm [skillReact, kwReact] ∧
      scoreCandidate [kwReact, skillReact] [] [] candHigh
        = scoreCandidate [skillReact, kwReact] [] [] candHigh := by
  have hp : ([kwReact, skillReact] : List Str).Perm [skillReact, kwReact] :=
    List.Perm.swap skillReact kwReact []
  exact ⟨hp, C9_deterministic_order_invariant.2.1 [kwReact, skillReact] [skillReact, kwReact]
    [] [] candHigh hp⟩

/-- C10 (counterexample): the claim's "all fields carried over unchanged" is
false — a candidate arriving with `score = 7` is returned with `score = 0`
when no keywords are supplied: the six score-related fields are overwritten,
not carried over. -/
theorem C10_counterexample :
    candScore7.score = some 7 ∧
      (calculateCandidateScores [candScore7] [] [] []).map
        (fun l => l.map Candidate.score) = .ok [some 0] ∧
      (some (7 : ℚ) ≠ some (0 : ℚ)) := by
  refine ⟨rfl, ?_, ?_⟩
  · with_unfolding_all decide
  · with_unfolding_all decide

/-- C10 (amended): every returned candidate carries `skillScore` equal to
the freshly computed `score`; all fields other than the six score-related
ones (`score`, `skillScore`, the three match percentages, `educationWeight`)
are carried over unchanged from the input record, while those six are
overwritten; and every returned record is the scoring of some input
record. -/
theorem C10_skillScore_and_fields :
    (∀ (sk ek edk : List Str) (c c' : Candidate), scoreCandidate sk ek edk c = .ok c' →
      c'.skillScore = c'.score ∧ (∃ q, c'.score = some q) ∧
      c'.id = c.id ∧ c'.name = c.name ∧ c'.email = c.email ∧ c'.skills = c.skills ∧
      c'.work_experiences = c.work_experiences ∧ c'.education = c.education) ∧
    (∀ (candidates : List Candidate) (sk ek edk : List Str) (out : List Candidate),
      calculateCandidateScores candidates sk ek edk = .ok out →
      ∀ c' ∈ out, ∃ c ∈ candidates, scoreCandidate sk ek edk c = .ok c') := by
  constructor
  · intro sk ek edk c c' hok
    rcases scoreCandidate_ok_inv hok with ⟨ds, hd, rfl⟩
    exact ⟨rfl, ⟨_, rfl⟩, rfl, rfl, rfl, rfl, rfl, rfl⟩
  · intro candidates sk ek edk out h c' hc'
    rcases calc_ok h with ⟨scored, hm, rfl⟩
    exact mapScore_ok_mem hm c' ((List.mem_insertionSort jsLe).mp hc')

theorem C10_witness :
    scoreCandidate [kwReact] [] [] candHigh = .ok c3out ∧
      c3out.skillScore = c3out.score ∧ c3out.id = candHigh.id := by
  have hok : scoreCandidate [kwReact] [] [] candHigh = .ok c3out := by
    with_unfolding_all decide
  have h := C10_skillScore_and_fields.1 [kwReact] [] [] candHigh c3out hok
  exact ⟨hok, h.1, h.2.2.1⟩
